import Mathlib

/-!
Verification development for the cons-cell core of the `lexpr` crate
(`src/lexpr/src/cons.rs`).

The Rust code defines a heap-allocated pair cell `Cons` holding two `Value`s
(`car` and `cdr`), a borrowing iterator `Iter`, an owning iterator `IntoIter`,
and three chain-to-vector conversions (`into_vec`, `to_vec`, `to_ref_vec`).

Embedding conventions:
- `Box<(Value, Value)>` is modelled as the two fields of the `Cons`
  constructor; boxing is identity in a pure setting.
- References are modelled by the referenced values themselves, and `clone`
  is modelled structurally (and proved to be the identity).
- The mutating `next(&mut self)` methods are modelled by explicit state
  passing: `next` returns the yielded item together with the successor
  iterator state.
- The `unreachable!()` post-loop branches of the three conversion functions
  are modelled by an `Option` result: `none` means the `unreachable!()` panic
  was reached, `some` is a normal return.
-/

namespace Lexpr

mutual

/-- Modelled from the spec: the collaborator type `Value` (defined outside
`src/` in the `lexpr` crate) is required only to have a designated empty-list
value (`Value::Null`), a variant owning a pair cell (`Value::Cons`), to be
constructible from arbitrary element types (modelled by `atom`), cloneable and
equality-comparable. -/
inductive Value where
  | null : Value
  | atom : Nat → Value
  | cons : Cons → Value
deriving DecidableEq

inductive Cons where
  | mk (car cdr : Value) : Cons
deriving DecidableEq

end

/-- Modelled from the spec: the predicate asking whether a `Value` is a pair
cell (`Value::is_cons`, used by `to_vec` and `to_ref_vec`). -/
def Value.is_cons : Value → Bool
  | .cons _ => true
  | _ => false

mutual

/-- Modelled from the spec: `Value` is cloneable; `Clone` performs a deep
structural copy. -/
def Value.clone : Value → Value
  | .null => .null
  | .atom n => .atom n
  | .cons c => .cons (Cons.clone c)

def Cons.clone : Cons → Cons
  | .mk a d => .mk (Value.clone a) (Value.clone d)

end

mutual

/-- Structural size of a value, used as a measure for induction. -/
def Value.size : Value → Nat
  | .null => 1
  | .atom _ => 1
  | .cons c => 1 + Cons.size c

def Cons.size : Cons → Nat
  | .mk a d => 1 + Value.size a + Value.size d

end

/-- Rust `Cons::new(car, cdr)`; the `Into<Value>` conversions of the
arguments are modelled by taking the already-converted `Value`s. -/
def Cons.new (car cdr : Value) : Cons := .mk car cdr

/-- Rust `Cons::car(&self)`: the first field. -/
def Cons.car : Cons → Value
  | .mk a _ => a

/-- Rust `Cons::cdr(&self)`: the second field. -/
def Cons.cdr : Cons → Value
  | .mk _ d => d

/-- Rust `Cons::set_car(&mut self, car)`, modelled by returning the updated
cell. -/
def Cons.set_car : Cons → Value → Cons
  | .mk _ d, v => .mk v d

/-- Rust `Cons::set_cdr(&mut self, cdr)`, modelled by returning the updated
cell. -/
def Cons.set_cdr : Cons → Value → Cons
  | .mk a _, v => .mk a v

/-- Rust `Cons::as_pair(&self)`. -/
def Cons.as_pair (c : Cons) : Value × Value := (c.car, c.cdr)

/-- Rust `Cons::into_pair(self)`. -/
def Cons.into_pair : Cons → Value × Value
  | .mk a d => (a, d)

/-- Rust `impl fmt::Debug for Cons`: writes `({car:?} . {cdr:?})`; the debug
rendering of the element type is a parameter `f`. -/
def Cons.debugFmt (f : Value → String) (c : Cons) : String :=
  "(" ++ f c.car ++ " . " ++ f c.cdr ++ ")"

mutual

/-- The cells of the chain starting at a cell, in head-to-tail order:
the cell itself, followed by the cells of its `cdr` chain. -/
def Cons.chainList : Cons → List Cons
  | .mk a d => .mk a d :: Value.chainTail d

def Value.chainTail : Value → List Cons
  | .cons c => Cons.chainList c
  | _ => []

end

mutual

/-- The terminator of a chain: the `cdr` of its last cell, which is the
first non-pair value reached by following `cdr` fields. -/
def Cons.chainTerminator : Cons → Value
  | .mk _ d => Value.tailTerm d

def Value.tailTerm : Value → Value
  | .cons c => Cons.chainTerminator c
  | d => d

end

/-- A chain is a proper list when it terminates in `Value::Null`. -/
def Cons.IsProperList (c : Cons) : Prop := c.chainTerminator = Value.null

/-- Builds the right-nested chain `Cons(v, Cons(w1, ... Cons(wk, t)...))`
with elements `v :: vs` and final `cdr` `t`. -/
def buildChain (v : Value) (vs : List Value) (t : Value) : Cons :=
  match vs with
  | [] => Cons.new v t
  | w :: ws => Cons.new v (Value.cons (buildChain w ws t))

/-- Rust `Iter<'a>`: the borrowing iterator state, a cursor holding an
optional reference to the current cell. -/
structure Iter where
  cursor : Option Cons

/-- Rust `Cons::iter(&self)`. -/
def Cons.iter (c : Cons) : Iter := ⟨some c⟩

/-- Rust `impl Iterator for Iter`: `next` yields the cell under the cursor
and advances the cursor to the `cdr` when that is a pair, to `None`
otherwise. -/
def Iter.next (it : Iter) : Option Cons × Iter :=
  match it.cursor with
  | some pair =>
    match pair.cdr with
    | Value.cons pair2 => (some pair, ⟨some pair2⟩)
    | _ => (some pair, ⟨none⟩)
  | none => (none, ⟨none⟩)

/-- Number of chain cells still to be visited; termination measure for
loops driving `Iter`. -/
def Iter.stateSize (it : Iter) : Nat :=
  match it.cursor with
  | some c => c.chainList.length
  | none => 0

/-- The iterator state after `k` calls to `next`. -/
def Iter.advance (it : Iter) : Nat → Iter
  | 0 => it
  | k + 1 => (it.next.2).advance k

/-- Rust `IntoIter`: the owning iterator state. -/
structure IntoIter where
  cursor : Option Cons

/-- Rust `impl IntoIterator for Cons`, method `into_iter`. -/
def Cons.into_iter (c : Cons) : IntoIter := ⟨some c⟩

/-- Rust `impl Iterator for IntoIter`: `next` takes the cell, splits it via
`into_pair`, and yields `(car, None)` with the cursor on the `cdr` cell when
the `cdr` is a pair, or `(car, Some(cdr))` with an empty cursor otherwise. -/
def IntoIter.next (it : IntoIter) : Option (Value × Option Value) × IntoIter :=
  match it.cursor with
  | some cell =>
    match cell.into_pair with
    | (car, Value.cons cell2) => (some (car, none), ⟨some cell2⟩)
    | (car, cdr) => (some (car, some cdr), ⟨none⟩)
  | none => (none, ⟨none⟩)

/-- Number of chain cells still to be consumed; termination measure for
loops driving `IntoIter`. -/
def IntoIter.stateSize (it : IntoIter) : Nat :=
  match it.cursor with
  | some c => c.chainList.length
  | none => 0

/-- The owning iterator state after `k` calls to `next`. -/
def IntoIter.advance (it : IntoIter) : Nat → IntoIter
  | 0 => it
  | k + 1 => (it.next.2).advance k

/-- The `for` loop of Rust `Cons::into_vec`: drive the owning iterator,
push each yielded item, and return as soon as an item carries a terminator.
Falling off the loop (the iterator being exhausted) reaches `unreachable!()`,
modelled as `none`. -/
def into_vecLoop (it : IntoIter) (vec : List Value) : Option (List Value × Value) :=
  match h : it.next with
  | (none, _) => none
  | (some (item, some rest), _) => some (vec ++ [item], rest)
  | (some (item, none), it2) => into_vecLoop it2 (vec ++ [item])
termination_by it.stateSize
decreasing_by
  rcases it with ⟨_ | ⟨a, d⟩⟩
  · simp [IntoIter.next] at h
  · rcases d with _ | n | p2 <;>
      simp [IntoIter.next, Cons.into_pair] at h
    obtain ⟨h1, h2⟩ := h
    subst h2
    simp [IntoIter.stateSize, Cons.chainList, Value.chainTail]

/-- Rust `Cons::into_vec(self)`. -/
def Cons.into_vec (c : Cons) : Option (List Value × Value) :=
  into_vecLoop c.into_iter []

/-- The `for` loop of Rust `Cons::to_vec`: drive the borrowing iterator,
push a clone of each cell's `car`, and return a clone of the `cdr` as the
terminator at the first cell whose `cdr` is not a pair. Falling off the loop
reaches `unreachable!()`, modelled as `none`. -/
def to_vecLoop (it : Iter) (vec : List Value) : Option (List Value × Value) :=
  match h : it.next with
  | (none, _) => none
  | (some pair, it2) =>
    if pair.cdr.is_cons = false then some (vec ++ [pair.car.clone], pair.cdr.clone)
    else to_vecLoop it2 (vec ++ [pair.car.clone])
termination_by it.stateSize
decreasing_by
  rcases it with ⟨_ | ⟨a, d⟩⟩
  · simp [Iter.next] at h
  · rcases d with _ | n | p2 <;>
      simp [Iter.next, Cons.cdr] at h <;>
      obtain ⟨h1, h2⟩ := h <;>
      subst h2 <;>
      simp [Iter.stateSize, Cons.chainList, Value.chainTail]

/-- Rust `Cons::to_vec(&self)`. -/
def Cons.to_vec (c : Cons) : Option (List Value × Value) :=
  to_vecLoop c.iter []

/-- The `for` loop of Rust `Cons::to_ref_vec`: identical control flow to
`to_vec` but pushing the references themselves (modelled by the referenced
values) instead of clones. Falling off the loop reaches `unreachable!()`,
modelled as `none`. -/
def to_ref_vecLoop (it : Iter) (vec : List Value) : Option (List Value × Value) :=
  match h : it.next with
  | (none, _) => none
  | (some pair, it2) =>
    if pair.cdr.is_cons = false then some (vec ++ [pair.car], pair.cdr)
    else to_ref_vecLoop it2 (vec ++ [pair.car])
termination_by it.stateSize
decreasing_by
  rcases it with ⟨_ | ⟨a, d⟩⟩
  · simp [Iter.next] at h
  · rcases d with _ | n | p2 <;>
      simp [Iter.next, Cons.cdr] at h <;>
      obtain ⟨h1, h2⟩ := h <;>
      subst h2 <;>
      simp [Iter.stateSize, Cons.chainList, Value.chainTail]

/-- Rust `Cons::to_ref_vec(&self)`. -/
def Cons.to_ref_vec (c : Cons) : Option (List Value × Value) :=
  to_ref_vecLoop c.iter []

/-- A sample debug rendering for atoms, used to instantiate the parametrized
element rendering on concrete inputs. -/
def sampleFmt : Value → String
  | .atom 1 => "1"
  | .atom 2 => "2"
  | _ => ""

end Lexpr

namespace Lexpr

/-- Cloning a value is the identity, by induction on the structural size. -/
theorem Value.clone_sized : ∀ (n : Nat) (v : Value), v.size ≤ n → v.clone = v := by
  intro n
  induction n with
  | zero =>
    intro v h
    exfalso
    rcases v with _ | m | c <;> simp [Value.size] at h
  | succ n ih =>
    intro v h
    rcases v with _ | m | c
    · rfl
    · rfl
    · rcases c with ⟨a, d⟩
      have ha : a.size ≤ n := by simp [Value.size, Cons.size] at h; omega
      have hd : d.size ≤ n := by simp [Value.size, Cons.size] at h; omega
      simp [Value.clone, Cons.clone, ih a ha, ih d hd]

/-- Cloning a value is the identity. -/
@[simp]
theorem value_clone_id (v : Value) : v.clone = v :=
  Value.clone_sized v.size v le_rfl

/-- Cloning a cell is the identity. -/
@[simp]
theorem cons_clone_id (c : Cons) : c.clone = c := by
  have h := value_clone_id (Value.cons c)
  simpa [Value.clone] using h

/-- A chain always contains at least one cell. -/
theorem chainList_length_pos (c : Cons) : 0 < c.chainList.length := by
  rcases c with ⟨a, d⟩
  simp [Cons.chainList]

/-- An exhausted borrowing iterator stays exhausted under `advance`. -/
theorem iter_advance_exhausted : ∀ (k : Nat), Iter.advance ⟨none⟩ k = ⟨none⟩ := by
  intro k
  induction k with
  | zero => rfl
  | succ k ih => simpa [Iter.advance, Iter.next] using ih

/-- An exhausted owning iterator stays exhausted under `advance`. -/
theorem intoiter_advance_exhausted : ∀ (k : Nat), IntoIter.advance ⟨none⟩ k = ⟨none⟩ := by
  intro k
  induction k with
  | zero => rfl
  | succ k ih => simpa [IntoIter.advance, IntoIter.next] using ih

/-- The loop of `into_vec` returns the chain's `car`s appended to the
accumulator, together with the chain terminator. -/
theorem into_vecLoop_sized : ∀ (n : Nat) (c : Cons) (acc : List Value),
    c.chainList.length ≤ n →
    into_vecLoop ⟨some c⟩ acc = some (acc ++ c.chainList.map Cons.car, c.chainTerminator) := by
  intro n
  induction n with
  | zero =>
    intro c acc h
    exfalso
    rcases c with ⟨a, d⟩
    simp [Cons.chainList] at h
  | succ n ih =>
    intro c acc h
    rcases c with ⟨a, d⟩
    rw [into_vecLoop]
    rcases d with _ | m | p2 <;>
      simp [IntoIter.next, Cons.into_pair, Cons.car, Cons.chainList, Value.chainTail,
        Cons.chainTerminator, Value.tailTerm]
    · rw [ih p2 (acc ++ [a]) ?_]
      · simp [Cons.car]
      · simp [Cons.chainList, Value.chainTail] at h
        omega

/-- The loop of `to_vec` returns the chain's `car`s appended to the
accumulator, together with the chain terminator. -/
theorem to_vecLoop_sized : ∀ (n : Nat) (c : Cons) (acc : List Value),
    c.chainList.length ≤ n →
    to_vecLoop ⟨some c⟩ acc = some (acc ++ c.chainList.map Cons.car, c.chainTerminator) := by
  intro n
  induction n with
  | zero =>
    intro c acc h
    exfalso
    rcases c with ⟨a, d⟩
    simp [Cons.chainList] at h
  | succ n ih =>
    intro c acc h
    rcases c with ⟨a, d⟩
    rw [to_vecLoop]
    rcases d with _ | m | p2 <;>
      simp [Iter.next, Cons.cdr, Value.is_cons, Cons.car, Cons.chainList, Value.chainTail,
        Cons.chainTerminator, Value.tailTerm]
    · rw [ih p2 (acc ++ [a]) ?_]
      · simp [Cons.car]
      · simp [Cons.chainList, Value.chainTail] at h
        omega

/-- The loop of `to_ref_vec` returns the chain's `car`s appended to the
accumulator, together with the chain terminator. -/
theorem to_ref_vecLoop_sized : ∀ (n : Nat) (c : Cons) (acc : List Value),
    c.chainList.length ≤ n →
    to_ref_vecLoop ⟨some c⟩ acc = some (acc ++ c.chainList.map Cons.car, c.chainTerminator) := by
  intro n
  induction n with
  | zero =>
    intro c acc h
    exfalso
    rcases c with ⟨a, d⟩
    simp [Cons.chainList] at h
  | succ n ih =>
    intro c acc h
    rcases c with ⟨a, d⟩
    rw [to_ref_vecLoop]
    rcases d with _ | m | p2 <;>
      simp [Iter.next, Cons.cdr, Value.is_cons, Cons.car, Cons.chainList, Value.chainTail,
        Cons.chainTerminator, Value.tailTerm]
    · rw [ih p2 (acc ++ [a]) ?_]
      · simp [Cons.car]
      · simp [Cons.chainList, Value.chainTail] at h
        omega

/-- Closed form of `into_vec`: the chain's `car`s and the terminator. -/
theorem Cons.into_vec_eq (c : Cons) :
    c.into_vec = some (c.chainList.map Cons.car, c.chainTerminator) :=
  into_vecLoop_sized c.chainList.length c [] le_rfl

/-- Closed form of `to_vec`: the chain's `car`s and the terminator. -/
theorem Cons.to_vec_eq (c : Cons) :
    c.to_vec = some (c.chainList.map Cons.car, c.chainTerminator) :=
  to_vecLoop_sized c.chainList.length c [] le_rfl

/-- Closed form of `to_ref_vec`: the chain's `car`s and the terminator. -/
theorem Cons.to_ref_vec_eq (c : Cons) :
    c.to_ref_vec = some (c.chainList.map Cons.car, c.chainTerminator) :=
  to_ref_vecLoop_sized c.chainList.length c [] le_rfl

end Lexpr

namespace Lexpr

/-- After `k` steps, the borrowing iterator yields the `k`-th chain cell,
or nothing once the chain is exhausted. -/
theorem iter_advance_get : ∀ (k : Nat) (c : Cons),
    (c.iter.advance k).next.1
      = if h : k < c.chainList.length then some (c.chainList.get ⟨k, h⟩) else none := by
  intro k
  induction k with
  | zero =>
    intro c
    rcases c with ⟨a, d⟩
    rw [dif_pos (chainList_length_pos _)]
    rcases d with _ | m | p2 <;>
      simp [Cons.iter, Iter.advance, Iter.next, Cons.cdr, Cons.chainList]
  | succ k ih =>
    intro c
    rcases c with ⟨a, d⟩
    rcases d with _ | m | p2
    · rw [dif_neg (by simp [Cons.chainList, Value.chainTail])]
      simp [Cons.iter, Iter.advance, Iter.next, Cons.cdr, iter_advance_exhausted]
    · rw [dif_neg (by simp [Cons.chainList, Value.chainTail])]
      simp [Cons.iter, Iter.advance, Iter.next, Cons.cdr, iter_advance_exhausted]
    · have h2 : (Cons.mk a (Value.cons p2)).iter.advance (k + 1) = p2.iter.advance k := by
        simp [Cons.iter, Iter.advance, Iter.next, Cons.cdr]
      rw [h2, ih p2]
      by_cases hk : k < p2.chainList.length
      · rw [dif_pos hk, dif_pos (by simp [Cons.chainList, Value.chainTail]; omega)]
        simp [Cons.chainList, Value.chainTail]
      · rw [dif_neg hk, dif_neg (by simp [Cons.chainList, Value.chainTail]; omega)]

/-- The `k`-th chain cell's `cdr` is a pair exactly when the cell is not
the last one. -/
theorem chain_get_cdr : ∀ (k : Nat) (c : Cons) (h : k < c.chainList.length),
    ((c.chainList.get ⟨k, h⟩).cdr.is_cons = true ↔ k + 1 < c.chainList.length) := by
  intro k
  induction k with
  | zero =>
    intro c h
    rcases c with ⟨a, d⟩
    rcases d with _ | m | p2
    · simp [Cons.chainList, Value.chainTail, Cons.cdr, Value.is_cons]
    · simp [Cons.chainList, Value.chainTail, Cons.cdr, Value.is_cons]
    · simp [Cons.chainList, Value.chainTail, Cons.cdr, Value.is_cons]
      have := chainList_length_pos p2
      omega
  | succ k ih =>
    intro c h
    rcases c with ⟨a, d⟩
    rcases d with _ | m | p2
    · exfalso
      simp [Cons.chainList, Value.chainTail] at h
    · exfalso
      simp [Cons.chainList, Value.chainTail] at h
    · have hlen : (Cons.mk a (Value.cons p2)).chainList = Cons.mk a (Value.cons p2) :: p2.chainList := by
        simp [Cons.chainList, Value.chainTail]
      have hk : k < p2.chainList.length := by
        rw [hlen] at h
        simpa using Nat.lt_of_succ_lt_succ h
      have := ih p2 hk
      simp only [hlen] at h ⊢
      simpa [List.get_cons_succ] using this

/-- After `k` steps, the owning iterator yields the `k`-th chain cell's
`car`, paired with the terminator exactly at the last cell. -/
theorem intoiter_advance_get : ∀ (k : Nat) (c : Cons),
    (c.into_iter.advance k).next.1
      = if h : k < c.chainList.length
        then some ((c.chainList.get ⟨k, h⟩).car,
          if k + 1 = c.chainList.length then some c.chainTerminator else none)
        else none := by
  intro k
  induction k with
  | zero =>
    intro c
    rcases c with ⟨a, d⟩
    rw [dif_pos (chainList_length_pos _)]
    rcases d with _ | m | p2
    · simp [Cons.into_iter, IntoIter.advance, IntoIter.next, Cons.into_pair, Cons.chainList,
        Value.chainTail, Cons.car, Cons.chainTerminator, Value.tailTerm]
    · simp [Cons.into_iter, IntoIter.advance, IntoIter.next, Cons.into_pair, Cons.chainList,
        Value.chainTail, Cons.car, Cons.chainTerminator, Value.tailTerm]
    · have hpos := chainList_length_pos p2
      have hcond : ¬((0 : Nat) + 1 = (Cons.mk a (Value.cons p2)).chainList.length) := by
        have hlen : (Cons.mk a (Value.cons p2)).chainList.length = p2.chainList.length + 1 := by
          simp [Cons.chainList, Value.chainTail]
        rw [hlen]
        omega
      rw [if_neg hcond]
      simp [Cons.into_iter, IntoIter.advance, IntoIter.next, Cons.into_pair, Cons.chainList,
        Value.chainTail, Cons.car]
  | succ k ih =>
    intro c
    rcases c with ⟨a, d⟩
    rcases d with _ | m | p2
    · rw [dif_neg (by simp [Cons.chainList, Value.chainTail])]
      simp [Cons.into_iter, IntoIter.advance, IntoIter.next, Cons.into_pair, intoiter_advance_exhausted]
    · rw [dif_neg (by simp [Cons.chainList, Value.chainTail])]
      simp [Cons.into_iter, IntoIter.advance, IntoIter.next, Cons.into_pair, intoiter_advance_exhausted]
    · have h2 : (Cons.mk a (Value.cons p2)).into_iter.advance (k + 1) = p2.into_iter.advance k := by
        simp [Cons.into_iter, IntoIter.advance, IntoIter.next, Cons.into_pair]
      rw [h2, ih p2]
      by_cases hk : k < p2.chainList.length
      · rw [dif_pos hk, dif_pos (by simp [Cons.chainList, Value.chainTail]; omega)]
        have hlen : (Cons.mk a (Value.cons p2)).chainList = Cons.mk a (Value.cons p2) :: p2.chainList := by
          simp [Cons.chainList, Value.chainTail]
        have hterm : (Cons.mk a (Value.cons p2)).chainTerminator = p2.chainTerminator := by
          simp [Cons.chainTerminator, Value.tailTerm]
        simp [hlen, hterm, List.get_cons_succ]
      · rw [dif_neg hk, dif_neg (by simp [Cons.chainList, Value.chainTail]; omega)]

/-- The chain terminator is the `cdr` of the last chain cell, and is not a
pair. -/
theorem chain_last_sized : ∀ (n : Nat) (c : Cons), c.chainList.length ≤ n →
    ∃ last pre, c.chainList = pre ++ [last] ∧ c.chainTerminator = last.cdr
      ∧ last.cdr.is_cons = false := by
  intro n
  induction n with
  | zero =>
    intro c h
    exfalso
    rcases c with ⟨a, d⟩
    simp [Cons.chainList] at h
  | succ n ih =>
    intro c h
    rcases c with ⟨a, d⟩
    rcases d with _ | m | p2
    · exact ⟨Cons.mk a Value.null, [], by
        simp [Cons.chainList, Value.chainTail, Cons.chainTerminator, Value.tailTerm, Cons.cdr,
          Value.is_cons]⟩
    · exact ⟨Cons.mk a (Value.atom m), [], by
        simp [Cons.chainList, Value.chainTail, Cons.chainTerminator, Value.tailTerm, Cons.cdr,
          Value.is_cons]⟩
    · have hlen : p2.chainList.length ≤ n := by
        simp [Cons.chainList, Value.chainTail] at h
        omega
      obtain ⟨last, pre, h1, h2, h3⟩ := ih p2 hlen
      refine ⟨last, Cons.mk a (Value.cons p2) :: pre, ?_, ?_, h3⟩
      · simp [Cons.chainList, Value.chainTail, h1]
      · simpa [Cons.chainTerminator, Value.tailTerm] using h2

/-- A built chain has exactly the given elements as `car`s and the given
value as terminator (when the latter is not a pair). -/
theorem buildChain_chain : ∀ (vs : List Value) (v t : Value), t.is_cons = false →
    (buildChain v vs t).chainList.map Cons.car = v :: vs
      ∧ (buildChain v vs t).chainTerminator = t := by
  intro vs
  induction vs with
  | nil =>
    intro v t ht
    rcases t with _ | m | p2
    · simp [buildChain, Cons.new, Cons.chainList, Value.chainTail, Cons.car,
        Cons.chainTerminator, Value.tailTerm]
    · simp [buildChain, Cons.new, Cons.chainList, Value.chainTail, Cons.car,
        Cons.chainTerminator, Value.tailTerm]
    · simp [Value.is_cons] at ht
  | cons w ws ih =>
    intro v t ht
    obtain ⟨h1, h2⟩ := ih w t ht
    simp [buildChain, Cons.new, Cons.chainList, Value.chainTail, Cons.car,
      Cons.chainTerminator, Value.tailTerm, h1, h2]

end Lexpr

namespace Lexpr

/-- C1: for every sequence of values `v :: vs` and every non-pair terminator
`t`, the right-nested chain built from them yields, under each of the three
conversion variants `into_vec`, `to_vec` and `to_ref_vec`, exactly the
elements in head-to-tail order together with the terminator `t`, and `t`
equals `Value::Null` iff the chain is a proper list. -/
theorem c1_chain_conversions (v : Value) (vs : List Value) (t : Value)
    (h : t.is_cons = false) :
    (buildChain v vs t).into_vec = some (v :: vs, t)
      ∧ (buildChain v vs t).to_vec = some (v :: vs, t)
      ∧ (buildChain v vs t).to_ref_vec = some (v :: vs, t)
      ∧ (t = Value.null ↔ (buildChain v vs t).IsProperList) := by
  obtain ⟨h1, h2⟩ := buildChain_chain vs v t h
  refine ⟨?_, ?_, ?_, ?_⟩
  · rw [Cons.into_vec_eq, h1, h2]
  · rw [Cons.to_vec_eq, h1, h2]
  · rw [Cons.to_ref_vec_eq, h1, h2]
  · simp [Cons.IsProperList, h2]

/-- Witness for C1 at the proper list `(1 2)`. -/
theorem c1_chain_conversions_witness :
    Value.is_cons Value.null = false
      ∧ ((buildChain (Value.atom 1) [Value.atom 2] Value.null).into_vec
            = some ([Value.atom 1, Value.atom 2], Value.null)
        ∧ (buildChain (Value.atom 1) [Value.atom 2] Value.null).to_vec
            = some ([Value.atom 1, Value.atom 2], Value.null)
        ∧ (buildChain (Value.atom 1) [Value.atom 2] Value.null).to_ref_vec
            = some ([Value.atom 1, Value.atom 2], Value.null)
        ∧ (Value.null = Value.null
            ↔ (buildChain (Value.atom 1) [Value.atom 2] Value.null).IsProperList)) :=
  ⟨rfl, c1_chain_conversions (Value.atom 1) [Value.atom 2] Value.null rfl⟩

/-- C2: over a chain of `N` cells the owning traversal yields exactly `N`
items; the item at position `k` is the `k`-th cell's `car` paired with the
terminator exactly when the cell is the last one, the terminator is the last
cell's `cdr`, and it is not a pair. -/
theorem c2_owning_traversal (c : Cons) (k : Nat) :
    ((c.into_iter.advance k).next.1
        = if h : k < c.chainList.length
          then some ((c.chainList.get ⟨k, h⟩).car,
            if k + 1 = c.chainList.length then some c.chainTerminator else none)
          else none)
      ∧ c.chainTerminator.is_cons = false
      ∧ (∃ last pre, c.chainList = pre ++ [last] ∧ c.chainTerminator = last.cdr) := by
  refine ⟨intoiter_advance_get k c, ?_, ?_⟩
  · obtain ⟨last, pre, hl1, hl2, hl3⟩ := chain_last_sized c.chainList.length c le_rfl
    rw [hl2]
    exact hl3
  · obtain ⟨last, pre, hl1, hl2, hl3⟩ := chain_last_sized c.chainList.length c le_rfl
    exact ⟨last, pre, hl1, hl2⟩

/-- Witness for C2 at the dotted pair `(5 . 7)`. -/
theorem c2_owning_traversal_witness :
    (((buildChain (Value.atom 5) [] (Value.atom 7)).into_iter.advance 0).next.1
        = if h : 0 < (buildChain (Value.atom 5) [] (Value.atom 7)).chainList.length
          then some (((buildChain (Value.atom 5) [] (Value.atom 7)).chainList.get ⟨0, h⟩).car,
            if 0 + 1 = (buildChain (Value.atom 5) [] (Value.atom 7)).chainList.length
            then some (buildChain (Value.atom 5) [] (Value.atom 7)).chainTerminator else none)
          else none)
      ∧ (buildChain (Value.atom 5) [] (Value.atom 7)).chainTerminator.is_cons = false
      ∧ (∃ last pre, (buildChain (Value.atom 5) [] (Value.atom 7)).chainList = pre ++ [last]
          ∧ (buildChain (Value.atom 5) [] (Value.atom 7)).chainTerminator = last.cdr) :=
  c2_owning_traversal (buildChain (Value.atom 5) [] (Value.atom 7)) 0

/-- C3: over a chain of `N` cells the borrowing traversal yields exactly the
`N` cells in order, and the `k`-th yielded cell's `cdr` is a pair iff the
cell is not the last one. -/
theorem c3_borrowing_traversal (c : Cons) (k : Nat) :
    ((c.iter.advance k).next.1
        = if h : k < c.chainList.length then some (c.chainList.get ⟨k, h⟩) else none)
      ∧ (∀ h : k < c.chainList.length,
          ((c.chainList.get ⟨k, h⟩).cdr.is_cons = true ↔ k + 1 < c.chainList.length)) :=
  ⟨iter_advance_get k c, fun h => chain_get_cdr k c h⟩

/-- Witness for C3 at the single dotted cell `(1 . 2)`: it yields exactly one
item, the cell itself. -/
theorem c3_borrowing_traversal_witness :
    (((Cons.new (Value.atom 1) (Value.atom 2)).iter.advance 0).next.1
        = if h : 0 < (Cons.new (Value.atom 1) (Value.atom 2)).chainList.length
          then some ((Cons.new (Value.atom 1) (Value.atom 2)).chainList.get ⟨0, h⟩) else none)
      ∧ (((Cons.new (Value.atom 1) (Value.atom 2)).chainList.get ⟨0, by decide⟩).cdr.is_cons = true
          ↔ 0 + 1 < (Cons.new (Value.atom 1) (Value.atom 2)).chainList.length) :=
  ⟨(c3_borrowing_traversal (Cons.new (Value.atom 1) (Value.atom 2)) 0).1,
    (c3_borrowing_traversal (Cons.new (Value.atom 1) (Value.atom 2)) 0).2 (by decide)⟩

/-- C4: on every finite chain, each of the three conversion functions returns
from inside its loop, so the modelled `unreachable!()` branch (result `none`)
is never executed. -/
theorem c4_conversions_total (c : Cons) :
    (∃ r, c.into_vec = some r) ∧ (∃ r, c.to_vec = some r) ∧ (∃ r, c.to_ref_vec = some r) :=
  ⟨⟨_, Cons.into_vec_eq c⟩, ⟨_, Cons.to_vec_eq c⟩, ⟨_, Cons.to_ref_vec_eq c⟩⟩

/-- C5: constructing a cell from two values and consuming it with
`into_pair` gives back exactly the two values. -/
theorem c5_new_into_pair (v w : Value) :
    (Cons.new v w).into_pair = (v, w) := rfl

/-- C6: two cells are equal iff their `car`s are equal and their `cdr`s are
equal. -/
theorem c6_structural_eq (a b : Cons) :
    a = b ↔ a.car = b.car ∧ a.cdr = b.cdr := by
  rcases a with ⟨a1, d1⟩
  rcases b with ⟨a2, d2⟩
  simp [Cons.car, Cons.cdr, Cons.mk.injEq]

/-- C7: once either iterator has returned `None`, every subsequent call to
`next` also returns `None`. -/
theorem c7_iterator_exhaustion (it : Iter) (jt : IntoIter) (m : Nat) :
    (it.next.1 = none → ((it.next.2).advance m).next.1 = none)
      ∧ (jt.next.1 = none → ((jt.next.2).advance m).next.1 = none) := by
  constructor
  · intro h
    rcases it with ⟨_ | p⟩
    · simp [Iter.next, iter_advance_exhausted]
    · exfalso
      rcases p with ⟨a, d⟩
      rcases d with _ | n | p2 <;> simp [Iter.next, Cons.cdr] at h
  · intro h
    rcases jt with ⟨_ | p⟩
    · simp [IntoIter.next, intoiter_advance_exhausted]
    · exfalso
      rcases p with ⟨a, d⟩
      rcases d with _ | n | p2 <;> simp [IntoIter.next, Cons.into_pair] at h

/-- Witness for C7 on already-exhausted iterators. -/
theorem c7_iterator_exhaustion_witness :
    ((Iter.mk none).next.1 = none ∧ (((Iter.mk none).next.2).advance 3).next.1 = none)
      ∧ ((IntoIter.mk none).next.1 = none ∧ (((IntoIter.mk none).next.2).advance 3).next.1 = none) :=
  ⟨⟨rfl, (c7_iterator_exhaustion ⟨none⟩ ⟨none⟩ 3).1 rfl⟩,
    ⟨rfl, (c7_iterator_exhaustion ⟨none⟩ ⟨none⟩ 3).2 rfl⟩⟩

/-- C8: `set_car` replaces only the `car` slot and `set_cdr` replaces only
the `cdr` slot. -/
theorem c8_setters_frame (c : Cons) (v : Value) :
    (c.set_car v).car = v ∧ (c.set_car v).cdr = c.cdr
      ∧ (c.set_cdr v).cdr = v ∧ (c.set_cdr v).car = c.car := by
  rcases c with ⟨a, d⟩
  simp [Cons.set_car, Cons.set_cdr, Cons.car, Cons.cdr]

/-- C9: the debug rendering of a cell is an opening parenthesis, the `car`
rendering, a dot, the `cdr` rendering and a closing parenthesis; in
particular `Cons::new(1, 2)` renders as the text between quotes in the
statement below, given the elements' own renderings. -/
theorem c9_debug_format (f : Value → String) (c : Cons) :
    c.debugFmt f = "(" ++ f c.car ++ " . " ++ f c.cdr ++ ")"
      ∧ (f (Value.atom 1) = "1" → f (Value.atom 2) = "2" →
          (Cons.new (Value.atom 1) (Value.atom 2)).debugFmt f = "(1 . 2)") := by
  constructor
  · rfl
  · intro h1 h2
    show "(" ++ f (Value.atom 1) ++ " . " ++ f (Value.atom 2) ++ ")" = "(1 . 2)"
    rw [h1, h2]
    rfl

/-- Witness for C9 with a concrete atom rendering. -/
theorem c9_debug_format_witness :
    (Cons.new (Value.atom 1) (Value.atom 2)).debugFmt sampleFmt = "(1 . 2)" :=
  (c9_debug_format sampleFmt (Cons.new (Value.atom 1) (Value.atom 2))).2 rfl rfl

/-- C10: the three conversion variants are equivalent: `to_vec` agrees with
`into_vec` on a clone, and `to_ref_vec` with all yielded references cloned
agrees with `to_vec`. -/
theorem c10_conversion_flavors_agree (c : Cons) :
    c.to_vec = (c.clone).into_vec
      ∧ (c.to_ref_vec.map fun r => (r.1.map Value.clone, r.2.clone)) = c.to_vec := by
  constructor
  · rw [Cons.to_vec_eq, cons_clone_id, Cons.into_vec_eq]
  · rw [Cons.to_ref_vec_eq, Cons.to_vec_eq]
    simp

end Lexpr
